import Mathlib

/-!
Verification development for the IntelliSearch orchestration core.

This file gives a shallow embedding of the components the specification
talks about:

* the tool-argument reconciler `fix_tool_args` (src/backend/tool_hash.py,
  second definition of the function, which is the one Python keeps);
* the synchronous orchestration loop `process_query_async`
  (src/agents/mcp_agent.py, `_process_query_async`, `_execute_tool_calls`,
  `_generate_final_response`);
* the streaming orchestration loop `inference_stream`
  (src/agents/mcp_agent_async.py).

Python dictionaries are embedded as insertion-ordered association lists
`List (String × a)` with unique keys; argument values are an opaque type
parameter because the reconciler only moves them around.  Machine floats
appear in the source only as `difflib.SequenceMatcher.ratio()` values
`2 * M / T` compared against the literal `0.2` and against one another;
for the tiny integers involved (`T` is the summed length of two parameter
names) the IEEE comparisons agree exactly with the rational comparisons
`10 * M >= T` and `M1 * T2 < M2 * T1`, so the similarity is embedded as
the exact pair `(M, T)`.
-/

/-- Lookup in an insertion-ordered association list (Python `dict.get`). -/
def dlookup {β : Type} : List (String × β) → String → Option β
  | [], _ => none
  | (k, v) :: rest, name => if k == name then some v else dlookup rest name

/-- Python `key in dict`. -/
def hasKey {β : Type} (d : List (String × β)) (p : String) : Bool :=
  d.any (fun kv => kv.1 == p)

/-- Python `x in list` for strings. -/
def memb (s : String) (l : List String) : Bool :=
  l.any (fun x => x == s)

/-- Python `d[k] = v`: replace in place if the key exists, else append. -/
def dset {β : Type} : List (String × β) → String → β → List (String × β)
  | [], k, v => [(k, v)]
  | (k0, v0) :: rest, k, v =>
    if k0 == k then (k, v) :: rest else (k0, v0) :: dset rest k v

/-- Length of the longest common prefix of two character lists. -/
def matchLen : List Char → List Char → Nat
  | a :: as, b :: bs => if a == b then matchLen as bs + 1 else 0
  | _, _ => 0

/-- Embedding of `difflib.SequenceMatcher.find_longest_match` over the whole strings
(no junk, `autojunk` inert because parameter names are shorter than 200
characters): the longest matching run, and among runs of maximal length
the one starting earliest in `a`, then earliest in `b`.  Scanning start
positions in row-major order and keeping the first strict improvement
realises exactly that tie-break. -/
def innerStep (a b : List Char) (i : Nat) (best : Nat × Nat × Nat) (j : Nat) :
    Nat × Nat × Nat :=
  if best.2.2 < matchLen (a.drop i) (b.drop j) then
    (i, j, matchLen (a.drop i) (b.drop j))
  else best

def outerStep (a b : List Char) (best : Nat × Nat × Nat) (i : Nat) :
    Nat × Nat × Nat :=
  (List.range b.length).foldl (innerStep a b i) best

def longestMatch (a b : List Char) : Nat × Nat × Nat :=
  (List.range a.length).foldl (outerStep a b) (0, 0, 0)

/-- Total size of the matching blocks of `difflib.SequenceMatcher`
(`get_matching_blocks`): recursively split around the longest match.
The recursion consumes at least one character of the combined input per
level, so `a.length + b.length` is enough fuel and the fuelled function
equals the mathematical recursion on every input. -/
def matchingTotalFuel : Nat → List Char → List Char → Nat
  | 0, _, _ => 0
  | fuel + 1, a, b =>
    let m := longestMatch a b
    if m.2.2 = 0 then 0
    else
      m.2.2 + matchingTotalFuel fuel (a.take m.1) (b.take m.2.1)
        + matchingTotalFuel fuel (a.drop (m.1 + m.2.2)) (b.drop (m.2.1 + m.2.2))

def matchingTotal (a b : List Char) : Nat :=
  matchingTotalFuel (a.length + b.length) a b

/-- Embeds `get_similarity` (src/backend/tool_hash.py): the
`SequenceMatcher.ratio()` value `2 * M / T`, represented exactly as the
pair `(M, T)` where `M` is the total matched size and
`T = len(s1) + len(s2)` (`ratio` is defined as `1.0` when `T = 0`). -/
def get_similarity (s1 s2 : String) : Nat × Nat :=
  (matchingTotal s1.data s2.data, s1.length + s2.length)

/-- The check `similarity >= SIMILARITY_THRESHOLD` with `SIMILARITY_THRESHOLD = 0.2`:
`2m/t ≥ 1/5` iff `10m ≥ t`, and `t = 0` means ratio `1.0`, also accepted. -/
def thresholdGE (s : Nat × Nat) : Bool :=
  s.2 ≤ 10 * s.1

/-- Strict comparison of two exact ratio representations
(`2m/t`, with `t = 0` denoting ratio `1`). -/
def ratioLt (s1 s2 : Nat × Nat) : Bool :=
  if s1.2 = 0 then (if s2.2 = 0 then false else s2.2 < 2 * s2.1)
  else if s2.2 = 0 then 2 * s1.1 < s1.2
  else s1.1 * s2.2 < s2.1 * s1.2

/-- A candidate fuzzy match: the tuple `(similarity, expected_param,
input_key)` of the source, carrying the proposed value as well (the source
recovers it from `temp_input_args[input_key]`; keys of a dict are unique,
so carrying the value is the same thing). -/
structure Cand (α : Type) where
  sim : Nat × Nat
  expected : String
  inputKey : String
  value : α
deriving DecidableEq, Repr

/-- The `potential_matches` construction: for each leftover input key (in
insertion order) and each unmatched expected parameter (in declared
order), keep the pair when the similarity is at least the threshold. -/
def candidates {α : Type} : List (String × α) → List String → List (Cand α)
  | [], _ => []
  | (ik, v) :: rest, unmatched =>
    (unmatched.filterMap (fun ep =>
      if thresholdGE (get_similarity ik ep) then
        some ⟨get_similarity ik ep, ep, ik, v⟩
      else none)) ++ candidates rest unmatched

/-- Insert into a descending-sorted list after all entries of greater or
equal similarity (later-inserted ties come later). -/
def insertDesc {α : Type} (c : Cand α) : List (Cand α) → List (Cand α)
  | [] => [c]
  | d :: rest => if ratioLt d.sim c.sim then c :: d :: rest else d :: insertDesc c rest

/-- Python `list.sort(key=lambda x: x[0], reverse=True)`: stable sort by
similarity, descending. -/
def sortDesc {α : Type} (l : List (Cand α)) : List (Cand α) :=
  l.foldl (fun acc c => insertDesc c acc) []

/-- The greedy assignment loop over the sorted candidate pairs: a pair is
applied only when neither its expected parameter nor its input key has
been consumed by an earlier (higher-scored) pair. -/
def greedyAssign {α : Type} :
    List (Cand α) → (List (String × α) × List String × List String) →
      List (String × α) × List String × List String
  | [], acc => acc
  | c :: rest, (fixedArgs, matched, usedKeys) =>
    if memb c.expected matched || memb c.inputKey usedKeys then
      greedyAssign rest (fixedArgs, matched, usedKeys)
    else
      greedyAssign rest (dset fixedArgs c.expected c.value, c.expected :: matched, c.inputKey :: usedKeys)

/-- The `input_schema` object of a discovered tool: the ordered key list
of `properties` and the `required` list. -/
structure ToolSchema where
  properties : List String
  required : List String
deriving DecidableEq, Repr

/-- One entry of the available-tools dictionary (as produced by tool
discovery and consumed by `fix_tool_args` and `_execute_tool_calls`). -/
structure ToolInfo where
  server : String
  name : String
  input_schema : ToolSchema
deriving DecidableEq, Repr

/-- Phase 3 of `fix_tool_args` (multi-parameter fuzzy matching): the
`fixed_args` dictionary after the exact-match pass and the greedy fuzzy
assignment, before the final required-parameters check. -/
def multiFixCore {α : Type} (allExpected : List String)
    (args : List (String × α)) : List (String × α) :=
  let fixedArgs0 := args.filter (fun kv => memb kv.1 allExpected)
  let matched0 := fixedArgs0.map Prod.fst
  let tempInput := args.filter (fun kv => !(memb kv.1 allExpected))
  let unmatchedExpected := allExpected.filter (fun p => !(memb p matched0))
  (greedyAssign (sortDesc (candidates tempInput unmatchedExpected))
    (fixedArgs0, matched0, [])).1

/-- Phase 3 of `fix_tool_args` together with the final
required-parameters check. -/
def multiFix {α : Type} (allExpected required : List String)
    (args : List (String × α)) : List (String × α) :=
  if required.all (fun p => hasKey (multiFixCore allExpected args) p) then
    multiFixCore allExpected args
  else args

/-- Phases 2 and 3 of `fix_tool_args`: the single-required-parameter
rename fires only when the key differs from the required name and the
similarity reaches the threshold; every other case falls through to the
multi-parameter phase. -/
def phase2or3 {α : Type} (allExpected required : List String)
    (args : List (String × α)) : List (String × α) :=
  match required, args with
  | [r], [(k, v)] =>
    if k != r && thresholdGE (get_similarity k r) then [(r, v)]
    else multiFix allExpected [r] [(k, v)]
  | rs, as0 => multiFix allExpected rs as0

/-- Embeds `fix_tool_args` (src/backend/tool_hash.py, the second definition of
the name, which shadows the first one in Python). -/
def fix_tool_args {α : Type} (tools : List (String × ToolInfo))
    (tool_args : List (String × α)) (tool_name : String) : List (String × α) :=
  match dlookup tools tool_name with
  | none => tool_args
  | some info =>
    let allExpected := info.input_schema.properties
    let required := info.input_schema.required
    if allExpected.isEmpty || tool_args.isEmpty then tool_args
    else if required.all (fun p => hasKey tool_args p) then tool_args
    else phase2or3 allExpected required tool_args

/-- All (loose key, unmatched declared parameter) pairs with their
similarity scores, in first-seen order. -/
def allPairs {α : Type} : List (String × α) → List String → List (Cand α)
  | [], _ => []
  | (ik, v) :: rest, ps =>
    ps.map (fun ep => ⟨get_similarity ik ep, ep, ik, v⟩) ++ allPairs rest ps

/-- Spec-side multi-parameter reconciliation, written from §4.3 steps 3
and 4 of the specification: partition proposed keys into exact matches
(kept as-is) and loose keys; score every (loose key, unmatched declared
parameter) pair and keep the pairs at or above the threshold; sort by
score descending (stable, first-seen-wins on ties); greedily assign each
loose key and each declared parameter at most once; if every required
parameter is then present return the reconciled mapping, otherwise the
original arguments. -/
def reconcileMultiSpec {α : Type} (schema : ToolSchema)
    (args : List (String × α)) : List (String × α) :=
  let exact := args.filter (fun kv => memb kv.1 schema.properties)
  let loose := args.filter (fun kv => !(memb kv.1 schema.properties))
  let stillUnmatched := schema.properties.filter (fun p => !(hasKey exact p))
  let cands := (allPairs loose stillUnmatched).filter (fun c => thresholdGE c.sim)
  let result := (greedyAssign (sortDesc cands) (exact, exact.map Prod.fst, [])).1
  if schema.required.all (fun p => hasKey result p) then result else args

/-! ## Conversation messages and the synchronous loop (src/agents/mcp_agent.py) -/

/-- One conversation-history entry.  The source stores plain dicts; the
fields used by the orchestration code are the role, the content, the
optional `tool_call_id` of tool-result messages, and whether the entry
carries assistant tool calls (`model_dump()` of a tool-call message). -/
structure Message where
  role : String
  content : String
  tool_call_id : Option String := none
  has_tool_calls : Bool := false
deriving DecidableEq, Repr

def mkUser (s : String) : Message := ⟨"user", s, none, false⟩
def mkAssistant (s : String) : Message := ⟨"assistant", s, none, false⟩
def mkToolMsg (txt id : String) : Message := ⟨"tool", txt, some id, false⟩

/-- One proposed tool call from the model.  `args` is the already-decoded
JSON argument object (the JSON codec is an external concern; decoding
failures are part of the tool-execution failure oracle). -/
structure ToolCallReq (α : Type) where
  id : String
  name : String
  args : List (String × α)
deriving DecidableEq, Repr

/-- One chat-completion response: the proposed tool calls (the empty list
embeds Python `tool_calls is None or len(tool_calls) == 0`) and the text
content. -/
structure ModelStep (α : Type) where
  tool_calls : List (ToolCallReq α)
  content : String
deriving DecidableEq, Repr

/-- The assistant message appended for a tool-call response
(`completion.choices[0].message.model_dump()`). -/
def assistantToolMsg {α : Type} (step : ModelStep α) : Message :=
  ⟨"assistant", step.content, none, true⟩

/-- One iteration of the `_execute_tool_calls` loop body: resolve the long
`server:name` of the first discovered tool with a matching short name. -/
def firstLong : List (String × ToolInfo) → String → Option String
  | [], _ => none
  | (_, info) :: rest, n =>
    if info.name == n then some (info.server ++ ":" ++ info.name) else firstLong rest n

/-- One iteration of the `_execute_tool_calls` loop (src/agents/mcp_agent.py):
resolve the tool, reconcile the arguments, dispatch to the provider
(an oracle `provider : longName → args → Except failureText resultText`),
and turn any failure into the recorded result text.  Returns the
`tools_used` entry and the `role=tool` history message. -/
def execOne {α : Type} (provider : String → List (String × α) → Except String String)
    (tools : List (String × ToolInfo)) (c : ToolCallReq α) : String × Message :=
  match firstLong tools c.name with
  | none =>
    -- source text wraps the tool name in single quotes
    (c.name, mkToolMsg ("Error: Tool " ++ c.name ++ " not found") c.id)
  | some ln =>
    match provider ln (fix_tool_args tools c.args ln) with
    | .ok txt => (ln, mkToolMsg txt c.id)
    | .error e => (ln, mkToolMsg ("Tool execution failed: " ++ e) c.id)

/-- Aggregate of `_execute_tool_calls`. -/
structure ExecOut where
  tools_used : List String
  history : List Message
deriving DecidableEq, Repr

/-- Embeds `_execute_tool_calls` (src/agents/mcp_agent.py): sequential loop over
the proposed calls; failures never propagate, each call yields exactly one
`tools_used` entry and one `role=tool` history message. -/
def execute_tool_calls {α : Type}
    (provider : String → List (String × α) → Except String String)
    (tools : List (String × ToolInfo)) (calls : List (ToolCallReq α)) : ExecOut :=
  ⟨calls.map (fun c => (execOne provider tools c).1),
   calls.map (fun c => (execOne provider tools c).2)⟩

/-- Record of one chat-completion request: the message list sent and
whether the `tools` argument was attached. -/
structure CallRec where
  msgs : List Message
  withTools : Bool
deriving DecidableEq, Repr

/-- Result of `_process_query_async` plus the instrumentation needed to
state the claims: the final history and the log of model calls. -/
structure SyncResult where
  answer : String
  iterations : Nat
  tools_called : List String
  history : List Message
  callLog : List CallRec
deriving DecidableEq, Repr

/-- The instruction appended by `_generate_final_response` before the
forced summary call. -/
def maxLimitPrompt : String :=
  "You have reached the maximum tool call limit. " ++
  "Please use the information gathered so far to generate your final answer."

/-- Embeds `_generate_final_response` (src/agents/mcp_agent.py): append a
system-authored `role=user` instruction, call the model with no tools
attached, append the assistant answer.  Returns the answer, the updated
history and the call record. -/
def generate_final_response {α : Type} (script : Nat → ModelStep α)
    (count : Nat) (hist : List Message) : String × List Message × CallRec :=
  let hist1 := hist ++ [mkUser maxLimitPrompt]
  let step := script count
  (step.content, hist1 ++ [mkAssistant step.content], ⟨hist1, false⟩)

/-- The round loop of `_process_query_async` (src/agents/mcp_agent.py),
with the model provider as an oracle `script` giving the response to the
n-th chat-completion request.  First argument after the oracles is the
number of remaining rounds; `count` is the number of rounds already run. -/
def process_query_core {α : Type} (script : Nat → ModelStep α)
    (provider : String → List (String × α) → Except String String)
    (tools : List (String × ToolInfo)) (maxIter : Nat) :
    Nat → Nat → List Message → List String → List CallRec → SyncResult
  | 0, count, hist, used, log =>
    -- max iterations reached: one forced summary call
    let r := generate_final_response script count hist
    ⟨r.1, maxIter, used, r.2.1, log ++ [r.2.2]⟩
  | k + 1, count, hist, used, log =>
    let step := script count
    let log1 := log ++ [⟨hist, true⟩]
    if step.tool_calls.isEmpty then
      -- FINAL: no tool calls, answer returned
      ⟨step.content, count + 1, used, hist ++ [mkAssistant step.content], log1⟩
    else
      let histA := hist ++ [assistantToolMsg step]
      let r := execute_tool_calls provider tools step.tool_calls
      process_query_core script provider tools maxIter k (count + 1)
        (histA ++ r.history) (used ++ r.tools_used) log1

/-- Embeds `_process_query_async` (src/agents/mcp_agent.py): append the user
message and run at most `maxIter` rounds. -/
def process_query_async {α : Type} (script : Nat → ModelStep α)
    (provider : String → List (String × α) → Except String String)
    (tools : List (String × ToolInfo)) (hist0 : List Message)
    (userMsg : String) (maxIter : Nat) : SyncResult :=
  process_query_core script provider tools maxIter maxIter 0
    (hist0 ++ [mkUser userMsg]) [] []

/-! ## The streaming loop (src/agents/mcp_agent_async.py) -/

/-- The per-tool detail record carried by `tool_call_start` and
`tool_result` events (built by the tool-execution provider). -/
structure ToolDetail where
  name : String
  args : String
  result : String
  success : Bool
deriving DecidableEq, Repr

/-- Result of one `mcp_base.execute_tool_calls` batch.
Modelled from the spec: `tools/mcp_base.py` is not part of the provided
sources; §6 specifies the tool-execution provider as an external
collaborator producing one outcome per proposed call, and the streaming
agent consumes its `tools_used`, `history` and `tools_detailed` fields. -/
structure ExecBatch where
  tools_used : List String
  history : List Message
  tools_detailed : List ToolDetail
deriving DecidableEq, Repr

/-- Streaming events (`{"type": ..., "data": ...}` dicts in the source). -/
inductive StreamEvent where
  | tool_call_start (d : ToolDetail)
  | tool_result (d : ToolDetail)
  | content (data : String)
  | done
  | error (data : String)
deriving DecidableEq, Repr

/-- The event burst of one tool round: a `tool_call_start` immediately
followed by the matching `tool_result`, per detail record, in order. -/
def pairBlock : List ToolDetail → List StreamEvent
  | [] => []
  | d :: rest => .tool_call_start d :: .tool_result d :: pairBlock rest

/-- The slicing `final_answer[i : i + chunk_size]` with `chunk_size = 20`,
fuelled by the list length (each step consumes at least one character,
so the fuel never runs out). -/
def chunkAux : Nat → List Char → List (List Char)
  | 0, _ => []
  | fuel + 1, l => if l.isEmpty then [] else l.take 20 :: chunkAux fuel (l.drop 20)

/-- The successive 20-character chunks of the final answer. -/
def chunkStr (s : String) : List String :=
  (chunkAux s.data.length s.data).map (fun l => String.mk l)

/-- Substring occurrence (Python `needle in haystack`). -/
def leadsWith : List Char → List Char → Bool
  | [], _ => true
  | _ :: _, [] => false
  | n :: ns, h :: hs => n == h && leadsWith ns hs

def occursIn (needle hay : List Char) : Bool :=
  match hay with
  | [] => leadsWith needle []
  | _ :: hs => leadsWith needle hay || occursIn needle hs

/-- The permission test of the streaming agent:
`"Access Denied" in error_text or "denied" in error_text.lower()`
(ASCII lowering; the strings compared against are ASCII). -/
def isPermissionDenied (e : String) : Bool :=
  occursIn "Access Denied".data e.data ||
  occursIn "denied".data (e.data.map Char.toLower)

/-- Python `entries and entries[-1].get("role") == "assistant"`. -/
def lastIsAssistant (l : List Message) : Bool :=
  match l.getLast? with
  | some m => m.role == "assistant"
  | none => false

/-- Outcome of the round loop inside the big `try` of `inference_stream`:
either the loop finished (events ending in `done`) or an exception was
raised out of it (model-call failure re-raised by `asyncio.wait_for`, or
a tool-provider failure re-raised by the inner `except` after the
permission-denial rollback). -/
inductive CoreOut where
  | finished (ev : List StreamEvent) (mem : List Message) (calls : Nat)
  | raised (msg : String) (ev : List StreamEvent) (mem : List Message) (calls : Nat)
deriving DecidableEq, Repr

/-- The round loop of `inference_stream` (src/agents/mcp_agent_async.py).
`script n` is the n-th chat-completion result (or its failure text), and
`exec n` the result of the tool-execution batch of round n (or the text
of the exception it raised).  The batch events are yielded as
start/result pairs; FINAL chunks the answer and ends with `done`; on a
tool-provider failure the just-appended assistant message is popped when
the failure is a permission denial and the failure is re-raised; after
the last round one forced summary call runs without tools. -/
def streamCore {α : Type} (script : Nat → Except String (ModelStep α))
    (exec : Nat → Except String ExecBatch) :
    Nat → Nat → List Message → List StreamEvent → Nat → CoreOut
  | 0, count, mem, ev, calls =>
    -- max iterations reached: `_generate_final_response` (async variant,
    -- no instruction message is appended), then chunked emission
    match script count with
    | .error e => .raised e ev mem (calls + 1)
    | .ok step =>
      .finished (ev ++ (chunkStr step.content).map .content ++ [.done])
        (mem ++ [mkAssistant step.content]) (calls + 1)
  | k + 1, count, mem, ev, calls =>
    match script count with
    | .error e => .raised e ev mem (calls + 1)
    | .ok step =>
      if step.tool_calls.isEmpty then
        .finished (ev ++ (chunkStr step.content).map .content ++ [.done])
          (mem ++ [mkAssistant step.content]) (calls + 1)
      else
        let memA := mem ++ [assistantToolMsg step]
        match exec count with
        | .ok batch =>
          streamCore script exec k (count + 1) (memA ++ batch.history)
            (ev ++ pairBlock batch.tools_detailed) (calls + 1)
        | .error e =>
          let memF :=
            if isPermissionDenied e then
              if lastIsAssistant memA then memA.dropLast else memA
            else memA
          .raised e ev memF (calls + 1)

/-- Embeds `inference_stream` (src/agents/mcp_agent_async.py): append the user
message, run the rounds, and let the outer `except` convert a raised
failure into one terminal `error` event.  Returns the emitted event
sequence, the final memory entries, and the number of model calls. -/
def inference_stream {α : Type} (script : Nat → Except String (ModelStep α))
    (exec : Nat → Except String ExecBatch) (mem0 : List Message)
    (prompt : String) (maxIter : Nat) : List StreamEvent × List Message × Nat :=
  match streamCore script exec maxIter 0 (mem0 ++ [mkUser prompt]) [] 0 with
  | .finished ev mem calls => (ev, mem, calls)
  | .raised e ev mem calls => (ev ++ [.error e], mem, calls)

/-- A round whose model call proposes tool calls and whose tool batch
succeeds (the loop continues afterwards). -/
def goodRound {α : Type} (script : Nat → Except String (ModelStep α))
    (exec : Nat → Except String ExecBatch) (i : Nat) : Prop :=
  ∃ step batch, script i = .ok step ∧ step.tool_calls ≠ [] ∧ exec i = .ok batch

/-- The tool details of round `i` (junk when the round is not a good tool
round). -/
def roundDetails {α : Type} (script : Nat → Except String (ModelStep α))
    (exec : Nat → Except String ExecBatch) (i : Nat) : List ToolDetail :=
  match script i, exec i with
  | .ok _, .ok b => b.tools_detailed
  | _, _ => []

/-- The messages appended to memory by round `i` (assistant tool-call
message, then the batch history). -/
def roundMsgs {α : Type} (script : Nat → Except String (ModelStep α))
    (exec : Nat → Except String ExecBatch) (i : Nat) : List Message :=
  match script i, exec i with
  | .ok step, .ok b => assistantToolMsg step :: b.history
  | _, _ => []

/-- Events emitted by `k` consecutive good tool rounds starting at round
`start`. -/
def accEv {α : Type} (script : Nat → Except String (ModelStep α))
    (exec : Nat → Except String ExecBatch) : Nat → Nat → List StreamEvent
  | 0, _ => []
  | k + 1, start =>
    pairBlock (roundDetails script exec start) ++ accEv script exec k (start + 1)

/-- Messages appended by `k` consecutive good tool rounds starting at
round `start`. -/
def accMem {α : Type} (script : Nat → Except String (ModelStep α))
    (exec : Nat → Except String ExecBatch) : Nat → Nat → List Message
  | 0, _ => []
  | k + 1, start =>
    roundMsgs script exec start ++ accMem script exec k (start + 1)

/-- Number of model calls recorded in a loop outcome. -/
def callsOf : CoreOut → Nat
  | .finished _ _ c => c
  | .raised _ _ _ c => c

/-! ## Lemmas about the reconciler -/

theorem memb_iff {s : String} {l : List String} : memb s l = true ↔ s ∈ l := by
  simp [memb, List.any_eq_true]

theorem hasKey_iff {β : Type} {d : List (String × β)} {p : String} :
    hasKey d p = true ↔ ∃ kv ∈ d, kv.1 = p := by
  simp [hasKey, List.any_eq_true]

theorem mem_dset {β : Type} {k : String} {v : β} {kv : String × β} :
    ∀ {l : List (String × β)}, kv ∈ dset l k v → kv = (k, v) ∨ kv ∈ l := by
  intro l
  induction l with
  | nil => simp [dset]
  | cons hd tl ih =>
    obtain ⟨k0, v0⟩ := hd
    simp only [dset]
    split
    · intro h
      rcases List.mem_cons.mp h with h | h
      · exact Or.inl h
      · exact Or.inr (List.mem_cons_of_mem _ h)
    · intro h
      rcases List.mem_cons.mp h with h | h
      · exact Or.inr (by simp [h])
      · rcases ih h with h' | h'
        · exact Or.inl h'
        · exact Or.inr (List.mem_cons_of_mem _ h')

theorem hasKey_cons {β : Type} (a : String) (b : β) (l : List (String × β)) (p : String) :
    hasKey ((a, b) :: l) p = ((a == p) || hasKey l p) := rfl

theorem hasKey_dset {β : Type} (k p : String) (v : β) :
    ∀ (l : List (String × β)), hasKey (dset l k v) p = ((k == p) || hasKey l p) := by
  intro l
  induction l with
  | nil => simp [dset, hasKey]
  | cons hd tl ih =>
    obtain ⟨k0, v0⟩ := hd
    simp only [dset]
    split
    · rename_i h0
      have hk : k0 = k := by simpa using h0
      subst hk
      rw [hasKey_cons, hasKey_cons]
      cases hkp : (k0 == p) <;> simp
    · rw [hasKey_cons, ih, hasKey_cons]
      cases h1 : (k0 == p) <;> cases h2 : (k == p) <;> simp

theorem mem_insertDesc {α : Type} {c x : Cand α} :
    ∀ {l : List (Cand α)}, x ∈ insertDesc c l ↔ x = c ∨ x ∈ l := by
  intro l
  induction l with
  | nil => simp [insertDesc]
  | cons d rest ih =>
    simp only [insertDesc]
    split
    · simp
    · simp only [List.mem_cons, ih]
      tauto

theorem mem_sortDesc_aux {α : Type} {x : Cand α} :
    ∀ (l acc : List (Cand α)),
      (x ∈ l.foldl (fun a c => insertDesc c a) acc ↔ x ∈ acc ∨ x ∈ l) := by
  intro l
  induction l with
  | nil => simp
  | cons c rest ih =>
    intro acc
    simp only [List.foldl_cons, ih, mem_insertDesc, List.mem_cons]
    tauto

theorem mem_sortDesc {α : Type} {x : Cand α} {l : List (Cand α)} :
    x ∈ sortDesc l ↔ x ∈ l := by
  simpa using mem_sortDesc_aux (x := x) l []

theorem mem_candidates {α : Type} {c : Cand α} :
    ∀ {temp : List (String × α)} {unmatched : List String},
      c ∈ candidates temp unmatched →
        (c.inputKey, c.value) ∈ temp ∧ c.expected ∈ unmatched ∧
          thresholdGE (get_similarity c.inputKey c.expected) = true := by
  intro temp
  induction temp with
  | nil => simp [candidates]
  | cons hd rest ih =>
    obtain ⟨ik, v⟩ := hd
    intro unmatched hc
    simp only [candidates, List.mem_append] at hc
    rcases hc with hc | hc
    · rcases List.mem_filterMap.mp hc with ⟨ep, hep, hif⟩
      by_cases ht : thresholdGE (get_similarity ik ep) = true
      · rw [if_pos ht] at hif
        cases hif
        exact ⟨by simp, by simpa using hep, ht⟩
      · rw [if_neg ht] at hif
        cases hif
    · obtain ⟨h1, h2, h3⟩ := ih hc
      exact ⟨List.mem_cons_of_mem _ h1, h2, h3⟩

theorem greedyAssign_mem {α : Type} {P : String × α → Prop} :
    ∀ (cs : List (Cand α)) (acc : List (String × α)) (m u : List String),
      (∀ kv ∈ acc, P kv) → (∀ c ∈ cs, P (c.expected, c.value)) →
      ∀ kv ∈ (greedyAssign cs (acc, m, u)).1, P kv := by
  intro cs
  induction cs with
  | nil => intro acc m u hacc _ kv hkv; exact hacc kv hkv
  | cons c rest ih =>
    intro acc m u hacc hcs
    simp only [greedyAssign]
    split
    · exact ih acc m u hacc (fun d hd => hcs d (List.mem_cons_of_mem _ hd))
    · refine ih _ _ _ (fun kv hkv => ?_) (fun d hd => hcs d (List.mem_cons_of_mem _ hd))
      rcases mem_dset hkv with h | h
      · subst h; exact hcs c (List.mem_cons_self _ _)
      · exact hacc _ h

theorem greedyAssign_hasKey {α : Type} {p : String} :
    ∀ (cs : List (Cand α)) (acc : List (String × α)) (m u : List String),
      hasKey acc p = false → (∀ c ∈ cs, c.expected ≠ p) →
      hasKey (greedyAssign cs (acc, m, u)).1 p = false := by
  intro cs
  induction cs with
  | nil => intro acc m u hacc _; exact hacc
  | cons c rest ih =>
    intro acc m u hacc hcs
    simp only [greedyAssign]
    split
    · exact ih acc m u hacc (fun d hd => hcs d (List.mem_cons_of_mem _ hd))
    · refine ih _ _ _ ?_ (fun d hd => hcs d (List.mem_cons_of_mem _ hd))
      rw [hasKey_dset]
      have : (c.expected == p) = false :=
        beq_eq_false_iff_ne.mpr (hcs c (List.mem_cons_self _ _))
      simp [this, hacc]

theorem memb_map_fst {β : Type} (p : String) :
    ∀ (l : List (String × β)), memb p (l.map Prod.fst) = hasKey l p
  | [] => rfl
  | (a, b) :: tl => by
    show ((a == p) || memb p (tl.map Prod.fst)) = ((a == p) || hasKey tl p)
    rw [memb_map_fst p tl]

theorem filterMap_if_eq {α : Type} (ik : String) (v : α) (ps : List String) :
    ps.filterMap (fun ep =>
        if thresholdGE (get_similarity ik ep) then
          some (⟨get_similarity ik ep, ep, ik, v⟩ : Cand α)
        else none) =
      (ps.map (fun ep => (⟨get_similarity ik ep, ep, ik, v⟩ : Cand α))).filter
        (fun c => thresholdGE c.sim) := by
  induction ps with
  | nil => rfl
  | cons ep rest ih =>
    by_cases h : thresholdGE (get_similarity ik ep) = true
    · simp [List.filterMap_cons, List.filter_cons, h, ih]
    · have h' : thresholdGE (get_similarity ik ep) = false := by simpa using h
      simp [List.filterMap_cons, List.filter_cons, h', ih]

theorem candidates_eq {α : Type} :
    ∀ (temp : List (String × α)) (unmatched : List String),
      candidates temp unmatched =
        (allPairs temp unmatched).filter (fun c => thresholdGE c.sim) := by
  intro temp
  induction temp with
  | nil => intro unmatched; rfl
  | cons hd rest ih =>
    obtain ⟨ik, v⟩ := hd
    intro unmatched
    simp only [candidates, allPairs, List.filter_append, ih, filterMap_if_eq]

theorem multiFix_eq_spec {α : Type} (props req : List String)
    (args : List (String × α)) :
    multiFix props req args = reconcileMultiSpec ⟨props, req⟩ args := by
  simp only [multiFix, multiFixCore, reconcileMultiSpec, candidates_eq, memb_map_fst]

/-! ## Lemmas about the similarity of a string with itself -/

theorem matchLen_self : ∀ (a : List Char), matchLen a a = a.length
  | [] => rfl
  | c :: rest => by simp [matchLen, matchLen_self rest]

theorem matchLen_le_left : ∀ (a b : List Char), matchLen a b ≤ a.length
  | [], _ => by simp [matchLen]
  | _ :: _, [] => by simp [matchLen]
  | a :: as, b :: bs => by
    simp only [matchLen, List.length_cons]
    split
    · exact Nat.succ_le_succ (matchLen_le_left as bs)
    · exact Nat.zero_le _

theorem innerStep_keep {a b : List Char} {i j : Nat} {best : Nat × Nat × Nat}
    (h : matchLen (a.drop i) (b.drop j) ≤ best.2.2) :
    innerStep a b i best j = best := by
  unfold innerStep
  rw [if_neg (Nat.not_lt.mpr h)]

theorem inner_keep {a b : List Char} {i : Nat} :
    ∀ (js : List Nat) (best : Nat × Nat × Nat),
      (∀ j ∈ js, matchLen (a.drop i) (b.drop j) ≤ best.2.2) →
      js.foldl (innerStep a b i) best = best := by
  intro js
  induction js with
  | nil => intro best _; rfl
  | cons j rest ih =>
    intro best h
    rw [List.foldl_cons, innerStep_keep (h j (by simp))]
    exact ih best (fun j' hj' => h j' (List.mem_cons_of_mem _ hj'))

theorem outer_keep {a b : List Char} :
    ∀ (is0 : List Nat) (best : Nat × Nat × Nat),
      (∀ i ∈ is0, ∀ j, matchLen (a.drop i) (b.drop j) ≤ best.2.2) →
      is0.foldl (outerStep a b) best = best := by
  intro is0
  induction is0 with
  | nil => intro best _; rfl
  | cons i rest ih =>
    intro best h
    have h1 : outerStep a b best i = best :=
      inner_keep _ best (fun j _ => h i (by simp) j)
    rw [List.foldl_cons, h1]
    exact ih best (fun i' hi' => h i' (List.mem_cons_of_mem _ hi'))

theorem longestMatch_self (a : List Char) (ha : a ≠ []) :
    longestMatch a a = (0, 0, a.length) := by
  obtain ⟨c, rest, rfl⟩ := List.exists_cons_of_ne_nil ha
  unfold longestMatch
  have hrange : List.range (c :: rest).length = 0 :: (List.range rest.length).map Nat.succ := by
    rw [List.length_cons, List.range_succ_eq_map]
  rw [hrange, List.foldl_cons]
  have h1 : outerStep (c :: rest) (c :: rest) (0, 0, 0) 0 = (0, 0, (c :: rest).length) := by
    unfold outerStep
    rw [hrange, List.foldl_cons]
    have h2 : innerStep (c :: rest) (c :: rest) 0 (0, 0, 0) 0 = (0, 0, (c :: rest).length) := by
      unfold innerStep
      simp [matchLen_self]
    rw [h2]
    apply inner_keep
    intro j _
    calc matchLen ((c :: rest).drop 0) ((c :: rest).drop j) ≤ ((c :: rest).drop 0).length :=
          matchLen_le_left _ _
      _ = (c :: rest).length := by rw [List.drop_zero]
  rw [h1]
  apply outer_keep
  intro i _ j
  calc matchLen ((c :: rest).drop i) ((c :: rest).drop j) ≤ ((c :: rest).drop i).length :=
        matchLen_le_left _ _
    _ ≤ (c :: rest).length := by rw [List.length_drop]; exact Nat.sub_le _ _

theorem matchingTotalFuel_nil : ∀ (fuel : Nat), matchingTotalFuel fuel [] [] = 0
  | 0 => rfl
  | _ + 1 => rfl

theorem matchingTotalFuel_self_succ (fuel : Nat) (a : List Char) :
    matchingTotalFuel (fuel + 1) a a = a.length := by
  cases a with
  | nil => rfl
  | cons c rest =>
    have hlm := longestMatch_self (c :: rest) (by simp)
    simp only [matchingTotalFuel, hlm]
    rw [if_neg (by simp)]
    simp [List.drop_length, matchingTotalFuel_nil]

theorem matchingTotal_self (a : List Char) : matchingTotal a a = a.length := by
  cases a with
  | nil => rfl
  | cons c rest =>
    have h : (c :: rest).length + (c :: rest).length =
        ((c :: rest).length + rest.length) + 1 := by
      simp [List.length_cons]; omega
    unfold matchingTotal
    rw [h, matchingTotalFuel_self_succ]

theorem thresholdGE_self (s : String) : thresholdGE (get_similarity s s) = true := by
  have hl : s.length = s.data.length := rfl
  simp only [thresholdGE, get_similarity, matchingTotal_self, decide_eq_true_eq]
  omega

/-! ## Characterisation of the reconciler phases -/

theorem multiFixCore_mem {α : Type} (props : List String) (args : List (String × α)) :
    ∀ kv ∈ multiFixCore props args, kv.1 ∈ props ∧ ∃ k0, (k0, kv.2) ∈ args := by
  simp only [multiFixCore]
  apply greedyAssign_mem
  · intro kv hkv
    have h1 := List.mem_filter.mp hkv
    exact ⟨memb_iff.mp h1.2, kv.1, h1.1⟩
  · intro c hc
    obtain ⟨hmem, hexp, _⟩ := mem_candidates (mem_sortDesc.mp hc)
    exact ⟨(List.mem_filter.mp hexp).1, c.inputKey, (List.mem_filter.mp hmem).1⟩

theorem multiFixCore_single_hasKey {α : Type} (props : List String) (r k : String) (v : α)
    (hthr : thresholdGE (get_similarity k r) = false) :
    hasKey (multiFixCore props [(k, v)]) r = false := by
  have hkr : k ≠ r := by
    intro h
    rw [h, thresholdGE_self] at hthr
    cases hthr
  have hkrb : (k == r) = false := beq_eq_false_iff_ne.mpr hkr
  by_cases hm : memb k props = true
  · have h1 : (([(k, v)] : List (String × α)).filter (fun kv => memb kv.1 props)) = [(k, v)] := by
      simp [hm]
    have h2 : (([(k, v)] : List (String × α)).filter (fun kv => !(memb kv.1 props))) = [] := by
      simp [hm]
    simp only [multiFixCore, h1, h2]
    simp [candidates, sortDesc, greedyAssign, hasKey, hkrb]
  · have hm' : memb k props = false := by simpa using hm
    have h1 : (([(k, v)] : List (String × α)).filter (fun kv => memb kv.1 props)) = [] := by
      simp [hm']
    have h2 : (([(k, v)] : List (String × α)).filter (fun kv => !(memb kv.1 props))) = [(k, v)] := by
      simp [hm']
    simp only [multiFixCore, h1, h2, List.map_nil]
    apply greedyAssign_hasKey
    · rfl
    · intro c hc hexp
      obtain ⟨hmem, _, hthr'⟩ := mem_candidates (mem_sortDesc.mp hc)
      have hik : c.inputKey = k := congrArg Prod.fst (List.mem_singleton.mp hmem)
      rw [hik, hexp] at hthr'
      rw [hthr'] at hthr
      cases hthr

theorem multiFix_single_nomatch {α : Type} (props : List String) (r k : String) (v : α)
    (hthr : thresholdGE (get_similarity k r) = false) :
    multiFix props [r] [(k, v)] = [(k, v)] := by
  have h := multiFixCore_single_hasKey props r k v hthr
  simp [multiFix, h]

theorem phase2or3_cases {α : Type} (props req : List String) (args : List (String × α)) :
    phase2or3 props req args = multiFix props req args ∨
      ∃ r k v, req = [r] ∧ args = [(k, v)] ∧ k ≠ r ∧
        thresholdGE (get_similarity k r) = true ∧
        phase2or3 props req args = [(r, v)] := by
  unfold phase2or3
  split
  · rename_i r k v
    by_cases hc : (k != r && thresholdGE (get_similarity k r)) = true
    · right
      have hc' : (k != r) = true ∧ thresholdGE (get_similarity k r) = true := by
        simpa [Bool.and_eq_true] using hc
      exact ⟨r, k, v, rfl, rfl, bne_iff_ne.mp hc'.1, hc'.2, by rw [if_pos hc]⟩
    · left
      rw [if_neg hc]
  · left
    rfl

/-- C4: for a schema declaring exactly one required parameter (drawn, as
JSON Schema requires, from the declared properties) and a single-key
argument mapping, the reconciler returns the renamed mapping
`[(required, value)]` iff the similarity of the supplied key and the
required name is at least 0.2, and the input unchanged otherwise (when
the key already equals the required name the two descriptions coincide). -/
theorem claim_C4_single_param_rename {α : Type} (tools : List (String × ToolInfo))
    (name : String) (info : ToolInfo) (r k : String) (v : α)
    (hlook : dlookup tools name = some info)
    (hreq : info.input_schema.required = [r])
    (hr : r ∈ info.input_schema.properties) :
    fix_tool_args tools [(k, v)] name =
      if thresholdGE (get_similarity k r) then [(r, v)] else [(k, v)] := by
  have hprops : info.input_schema.properties.isEmpty = false := by
    cases hp : info.input_schema.properties with
    | nil => rw [hp] at hr; cases hr
    | cons _ _ => rfl
  simp only [fix_tool_args, hlook, hreq, hprops, List.isEmpty_cons, Bool.or_self,
    Bool.false_eq_true, if_false, List.all_cons, List.all_nil, Bool.and_true]
  by_cases hkr : k = r
  · subst hkr
    have h1 : hasKey [(k, v)] k = true := by simp [hasKey]
    simp [h1, thresholdGE_self]
  · have h1 : hasKey [(k, v)] r = false := by
      simp [hasKey, beq_eq_false_iff_ne.mpr hkr]
    have h2 : (k != r) = true := bne_iff_ne.mpr hkr
    simp only [h1, Bool.false_eq_true, if_false, phase2or3, h2, Bool.true_and]
    by_cases hthr : thresholdGE (get_similarity k r) = true
    · simp [hthr]
    · have hthr' : thresholdGE (get_similarity k r) = false := by simpa using hthr
      simp [hthr', multiFix_single_nomatch info.input_schema.properties r k v hthr']

set_option maxRecDepth 8000 in
/-- C4 witness: the spec scenario, schema requiring only `query`, call
supplying the typo `qeury`; the similarity is 0.8 and the key is renamed. -/
theorem claim_C4_witness :
    fix_tool_args [("s:q", (⟨"s", "q", ⟨["query"], ["query"]⟩⟩ : ToolInfo))]
      [("qeury", "AI")] "s:q" = [("query", "AI")] := by
  have h := claim_C4_single_param_rename
    [("s:q", (⟨"s", "q", ⟨["query"], ["query"]⟩⟩ : ToolInfo))] "s:q"
    ⟨"s", "q", ⟨["query"], ["query"]⟩⟩ "query" "qeury" "AI"
    (by decide) rfl (by decide)
  rw [h]
  decide

/-- C6: whenever every required parameter name is already a key of the
proposed arguments (vacuously so for tools declaring no parameters), the
reconciler returns the arguments unchanged. -/
theorem claim_C6_identity_when_satisfied {α : Type} (tools : List (String × ToolInfo))
    (args : List (String × α)) (name : String)
    (h : ∀ info, dlookup tools name = some info →
      ∀ p ∈ info.input_schema.required, hasKey args p = true) :
    fix_tool_args tools args name = args := by
  cases hl : dlookup tools name with
  | none => simp [fix_tool_args, hl]
  | some info =>
    simp only [fix_tool_args, hl]
    by_cases he : (info.input_schema.properties.isEmpty || args.isEmpty) = true
    · simp [he]
    · have he' : (info.input_schema.properties.isEmpty || args.isEmpty) = false := by
        simpa using he
      have hall : (info.input_schema.required.all fun p => hasKey args p) = true :=
        List.all_eq_true.mpr (fun p hp => h info hl p hp)
      simp [he', hall]

/-- C6 witness: a schema with required `query` and optional `limit`,
arguments already containing `query` plus an extra key; the reconciler is
the identity. -/
theorem claim_C6_witness :
    fix_tool_args [("s:w", (⟨"s", "w", ⟨["query", "limit"], ["query"]⟩⟩ : ToolInfo))]
      [("query", "AI"), ("extra", "Z")] "s:w" = [("query", "AI"), ("extra", "Z")] := by
  apply claim_C6_identity_when_satisfied
  intro info hinfo p hp
  have h1 : (some info : Option ToolInfo) =
      some ⟨"s", "w", ⟨["query", "limit"], ["query"]⟩⟩ := hinfo.symm.trans (by decide)
  obtain rfl : info = ⟨"s", "w", ⟨["query", "limit"], ["query"]⟩⟩ := Option.some.inj h1
  have hp' : p = "query" := by simpa using hp
  subst hp'
  decide

/-- C10: the reconciler either returns the original mapping itself, or a
repaired mapping whose keys are all declared parameter names and whose
values are all taken unchanged from the proposed arguments (so any
proposed key matching nothing is absent from the repaired result).  The
schema is assumed well-formed: required names are declared properties. -/
theorem claim_C10_repair_shape {α : Type} (tools : List (String × ToolInfo))
    (name : String) (info : ToolInfo) (args : List (String × α))
    (hlook : dlookup tools name = some info)
    (hwf : ∀ p ∈ info.input_schema.required, p ∈ info.input_schema.properties) :
    fix_tool_args tools args name = args ∨
      ∀ kv ∈ fix_tool_args tools args name,
        kv.1 ∈ info.input_schema.properties ∧ ∃ k0, (k0, kv.2) ∈ args := by
  simp only [fix_tool_args, hlook]
  by_cases he : (info.input_schema.properties.isEmpty || args.isEmpty) = true
  · left; simp [he]
  · have he' : (info.input_schema.properties.isEmpty || args.isEmpty) = false := by
      simpa using he
    by_cases hall : (info.input_schema.required.all fun p => hasKey args p) = true
    · left; simp [he', hall]
    · have hall' : (info.input_schema.required.all fun p => hasKey args p) = false := by
        simpa using hall
      simp only [he', Bool.false_eq_true, if_false, hall']
      rcases phase2or3_cases info.input_schema.properties info.input_schema.required args
        with hcase | ⟨r, k, v, hreq, hargs, _, _, hcase⟩
      · rw [hcase]
        by_cases hfin : (info.input_schema.required.all fun p =>
            hasKey (multiFixCore info.input_schema.properties args) p) = true
        · right
          intro kv hkv
          rw [multiFix, if_pos hfin] at hkv
          exact multiFixCore_mem info.input_schema.properties args kv hkv
        · left
          have hfin' : (info.input_schema.required.all fun p =>
              hasKey (multiFixCore info.input_schema.properties args) p) = false := by
            simpa using hfin
          rw [multiFix, hfin']
          simp
      · rw [hcase]
        right
        intro kv hkv
        have hkv' : kv = (r, v) := List.mem_singleton.mp hkv
        subst hkv'
        refine ⟨hwf r (by rw [hreq]; simp), k, ?_⟩
        rw [hargs]
        simp

/-- C10 witness: a two-parameter schema, one exact key, one fuzzy key and
one junk key; the repaired mapping keeps only declared parameter names
with the original values, dropping the junk key. -/
theorem claim_C10_witness :
    fix_tool_args
        [("s:m", (⟨"s", "m", ⟨["from", "to"], ["from", "to"]⟩⟩ : ToolInfo))]
        [("from", "A"), ("too", "B")] "s:m" = [("from", "A"), ("too", "B")] ∨
      ∀ kv ∈ fix_tool_args
          [("s:m", (⟨"s", "m", ⟨["from", "to"], ["from", "to"]⟩⟩ : ToolInfo))]
          [("from", "A"), ("too", "B")] "s:m",
        kv.1 ∈ ["from", "to"] ∧ ∃ k0, (k0, kv.2) ∈ [("from", "A"), ("too", "B")] :=
  claim_C10_repair_shape
    [("s:m", (⟨"s", "m", ⟨["from", "to"], ["from", "to"]⟩⟩ : ToolInfo))]
    "s:m" ⟨"s", "m", ⟨["from", "to"], ["from", "to"]⟩⟩
    [("from", "A"), ("too", "B")] (by decide) (by decide)

/-- C5: under the multi-parameter-path preconditions (schema found,
declared parameters and arguments nonempty, some required parameter
missing, single-parameter rename not applicable), `fix_tool_args`
computes exactly the reconciliation described by §4.3 steps 3 and 4 of
the spec (`reconcileMultiSpec`): exact matches kept, scored pairs at or
above threshold sorted descending, greedy one-shot assignment, and the
final required-parameters check deciding between the repaired mapping
and the untouched original. -/
theorem claim_C5_multi_param_greedy {α : Type} (tools : List (String × ToolInfo))
    (name : String) (info : ToolInfo) (args : List (String × α))
    (hlook : dlookup tools name = some info)
    (hprops : info.input_schema.properties ≠ [])
    (hargs : args ≠ [])
    (hall : (info.input_schema.required.all fun p => hasKey args p) = false)
    (hsingle : ∀ r k v, info.input_schema.required = [r] → args = [(k, v)] → k ≠ r →
      thresholdGE (get_similarity k r) = false) :
    fix_tool_args tools args name = reconcileMultiSpec info.input_schema args := by
  have hpe : info.input_schema.properties.isEmpty = false := by
    cases hp : info.input_schema.properties with
    | nil => exact absurd hp hprops
    | cons _ _ => rfl
  have hae : args.isEmpty = false := by
    cases ha : args with
    | nil => exact absurd ha hargs
    | cons _ _ => rfl
  simp only [fix_tool_args, hlook, hpe, hae, Bool.or_self, Bool.false_eq_true,
    if_false, hall]
  rcases phase2or3_cases info.input_schema.properties info.input_schema.required args
    with hcase | ⟨r, k, v, hreq, hargs2, hkr, hthr, _⟩
  · rw [hcase]
    exact multiFix_eq_spec info.input_schema.properties info.input_schema.required args
  · have := hsingle r k v hreq hargs2 hkr
    rw [this] at hthr
    cases hthr

/-- C5 witness: the spec scenario, schema requiring `from` and `to`, call
supplying `too` and `form`; the greedy multi-parameter path produces the
mapping predicted by the spec-side reconciler, namely
`[(to, X), (from, Y)]`. -/
theorem claim_C5_witness :
    fix_tool_args [("s:t", (⟨"s", "t", ⟨["from", "to"], ["from", "to"]⟩⟩ : ToolInfo))]
      [("too", "X"), ("form", "Y")] "s:t" = [("to", "X"), ("from", "Y")] := by
  have h := claim_C5_multi_param_greedy
    [("s:t", (⟨"s", "t", ⟨["from", "to"], ["from", "to"]⟩⟩ : ToolInfo))] "s:t"
    ⟨"s", "t", ⟨["from", "to"], ["from", "to"]⟩⟩
    [("too", "X"), ("form", "Y")]
    (by decide) (by decide) (by decide) (by decide)
    (fun r k v hr _ _ => by simp at hr)
  rw [h]
  decide

/-! ## Lemmas about chunking, events and the streaming loop -/

theorem chunkAux_nil : ∀ (fuel : Nat), chunkAux fuel [] = []
  | 0 => rfl
  | _ + 1 => rfl

theorem chunkAux_flatten :
    ∀ (fuel : Nat) (l : List Char), l.length ≤ fuel → (chunkAux fuel l).flatten = l := by
  intro fuel
  induction fuel with
  | zero =>
    intro l hl
    have : l = [] := List.length_eq_zero.mp (Nat.le_zero.mp hl)
    subst this
    rfl
  | succ fuel ih =>
    intro l hl
    cases l with
    | nil => rfl
    | cons c rest =>
      have hne : ((c :: rest) : List Char).isEmpty = false := rfl
      simp only [chunkAux, hne, Bool.false_eq_true, if_false, List.flatten_cons]
      have hlen : ((c :: rest).drop 20).length ≤ fuel := by
        rw [List.length_drop]
        simp only [List.length_cons] at hl ⊢
        omega
      rw [ih ((c :: rest).drop 20) hlen]
      exact List.take_append_drop 20 (c :: rest)

theorem chunkAux_short : ∀ (fuel : Nat) (l : List Char) (c : List Char),
    c ∈ chunkAux fuel l → c.length ≤ 20 ∧ c ≠ [] := by
  intro fuel
  induction fuel with
  | zero => intro l c hc; cases hc
  | succ fuel ih =>
    intro l c hc
    cases l with
    | nil => rw [chunkAux_nil] at hc; cases hc
    | cons x rest =>
      have hne : ((x :: rest) : List Char).isEmpty = false := rfl
      simp only [chunkAux, hne, Bool.false_eq_true, if_false] at hc
      rcases List.mem_cons.mp hc with h | h
      · subst h
        constructor
        · rw [List.length_take]; exact min_le_left _ _
        · simp
      · exact ih _ _ h

theorem chunkAux_dropLast_full :
    ∀ (fuel : Nat) (l : List Char) (c : List Char),
      c ∈ (chunkAux fuel l).dropLast → c.length = 20 := by
  intro fuel
  induction fuel with
  | zero => intro l c hc; cases hc
  | succ fuel ih =>
    intro l c hc
    cases l with
    | nil => rw [chunkAux_nil] at hc; cases hc
    | cons x rest =>
      have hne : ((x :: rest) : List Char).isEmpty = false := rfl
      simp only [chunkAux, hne, Bool.false_eq_true, if_false] at hc
      cases hrest : chunkAux fuel ((x :: rest).drop 20) with
      | nil =>
        rw [hrest] at hc
        cases hc
      | cons y ys =>
        rw [hrest, List.dropLast_cons₂] at hc
        rcases List.mem_cons.mp hc with h | h
        · subst h
          have hdrop : ((x :: rest) : List Char).drop 20 ≠ [] := by
            intro hd
            rw [hd, chunkAux_nil] at hrest
            cases hrest
          have hlen : 20 < ((x :: rest) : List Char).length := by
            by_contra hle
            exact hdrop (List.drop_eq_nil_iff.mpr (by omega))
          rw [List.length_take]
          exact min_eq_left (by omega)
        · have := ih ((x :: rest).drop 20) c
          rw [hrest] at this
          exact this h

theorem chunkStr_flatten (s : String) :
    ((chunkStr s).map String.data).flatten = s.data := by
  unfold chunkStr
  rw [List.map_map]
  have h1 : (String.data ∘ fun l => String.mk l) = id := rfl
  rw [h1, List.map_id]
  exact chunkAux_flatten _ _ (Nat.le_refl _)

theorem chunkStr_sizes (s : String) :
    (∀ c ∈ (chunkStr s).dropLast, c.length = 20) ∧
      (∀ c ∈ chunkStr s, c.length ≤ 20 ∧ c ≠ "") := by
  constructor
  · intro c hc
    unfold chunkStr at hc
    rw [← List.map_dropLast] at hc
    obtain ⟨l, hl, rfl⟩ := List.mem_map.mp hc
    exact chunkAux_dropLast_full _ _ _ hl
  · intro c hc
    unfold chunkStr at hc
    obtain ⟨l, hl, rfl⟩ := List.mem_map.mp hc
    obtain ⟨h1, h2⟩ := chunkAux_short _ _ _ hl
    refine ⟨h1, ?_⟩
    intro hcon
    exact h2 (congrArg String.data hcon)

theorem pairBlock_append (a b : List ToolDetail) :
    pairBlock (a ++ b) = pairBlock a ++ pairBlock b := by
  induction a with
  | nil => rfl
  | cons d rest ih => simp [pairBlock, ih]

/-! ### Unfolding lemmas for the streaming round loop -/

theorem streamCore_model_error {α : Type} (script : Nat → Except String (ModelStep α))
    (exec : Nat → Except String ExecBatch) (k count : Nat) (mem : List Message)
    (ev : List StreamEvent) (calls : Nat) (e : String)
    (hs : script count = .error e) :
    streamCore script exec k count mem ev calls = .raised e ev mem (calls + 1) := by
  cases k <;> simp [streamCore, hs]

theorem streamCore_forced {α : Type} (script : Nat → Except String (ModelStep α))
    (exec : Nat → Except String ExecBatch) (count : Nat) (mem : List Message)
    (ev : List StreamEvent) (calls : Nat) (step : ModelStep α)
    (hs : script count = .ok step) :
    streamCore script exec 0 count mem ev calls =
      .finished (ev ++ (chunkStr step.content).map .content ++ [.done])
        (mem ++ [mkAssistant step.content]) (calls + 1) := by
  simp [streamCore, hs]

theorem streamCore_final {α : Type} (script : Nat → Except String (ModelStep α))
    (exec : Nat → Except String ExecBatch) (k count : Nat) (mem : List Message)
    (ev : List StreamEvent) (calls : Nat) (step : ModelStep α)
    (hs : script count = .ok step) (hc : step.tool_calls.isEmpty = true) :
    streamCore script exec (k + 1) count mem ev calls =
      .finished (ev ++ (chunkStr step.content).map .content ++ [.done])
        (mem ++ [mkAssistant step.content]) (calls + 1) := by
  simp [streamCore, hs, hc]

theorem streamCore_tool_round {α : Type} (script : Nat → Except String (ModelStep α))
    (exec : Nat → Except String ExecBatch) (k count : Nat) (mem : List Message)
    (ev : List StreamEvent) (calls : Nat) (step : ModelStep α) (batch : ExecBatch)
    (hs : script count = .ok step) (hc : step.tool_calls.isEmpty = false)
    (he : exec count = .ok batch) :
    streamCore script exec (k + 1) count mem ev calls =
      streamCore script exec k (count + 1)
        ((mem ++ [assistantToolMsg step]) ++ batch.history)
        (ev ++ pairBlock batch.tools_detailed) (calls + 1) := by
  simp [streamCore, hs, hc, he]

theorem streamCore_tool_error {α : Type} (script : Nat → Except String (ModelStep α))
    (exec : Nat → Except String ExecBatch) (k count : Nat) (mem : List Message)
    (ev : List StreamEvent) (calls : Nat) (step : ModelStep α) (e : String)
    (hs : script count = .ok step) (hc : step.tool_calls.isEmpty = false)
    (he : exec count = .error e) :
    streamCore script exec (k + 1) count mem ev calls =
      .raised e ev
        (if isPermissionDenied e then
          (if lastIsAssistant (mem ++ [assistantToolMsg step]) then
            (mem ++ [assistantToolMsg step]).dropLast
          else mem ++ [assistantToolMsg step])
        else mem ++ [assistantToolMsg step]) (calls + 1) := by
  simp [streamCore, hs, hc, he]

theorem lastIsAssistant_toolMsg {α : Type} (mem : List Message) (step : ModelStep α) :
    lastIsAssistant (mem ++ [assistantToolMsg step]) = true := by
  simp [lastIsAssistant, List.getLast?_concat, assistantToolMsg]

theorem streamCore_shape {α : Type} (script : Nat → Except String (ModelStep α))
    (exec : Nat → Except String ExecBatch) :
    ∀ (k count : Nat) (mem : List Message) (ev : List StreamEvent) (calls : Nat),
      (∃ (ds : List ToolDetail) (cs : List String) (memf : List Message) (cf : Nat),
          streamCore script exec k count mem ev calls =
            .finished (ev ++ pairBlock ds ++ cs.map StreamEvent.content ++ [.done]) memf cf) ∨
      (∃ (ds : List ToolDetail) (e : String) (memf : List Message) (cf : Nat),
          streamCore script exec k count mem ev calls =
            .raised e (ev ++ pairBlock ds) memf cf) := by
  intro k
  induction k with
  | zero =>
    intro count mem ev calls
    cases hs : script count with
    | error e =>
      right
      exact ⟨[], e, mem, calls + 1, by
        rw [streamCore_model_error script exec 0 count mem ev calls e hs]
        simp [pairBlock]⟩
    | ok step =>
      left
      exact ⟨[], chunkStr step.content, mem ++ [mkAssistant step.content], calls + 1, by
        rw [streamCore_forced script exec count mem ev calls step hs]
        simp [pairBlock]⟩
  | succ k ih =>
    intro count mem ev calls
    cases hs : script count with
    | error e =>
      right
      exact ⟨[], e, mem, calls + 1, by
        rw [streamCore_model_error script exec (k + 1) count mem ev calls e hs]
        simp [pairBlock]⟩
    | ok step =>
      by_cases hc : step.tool_calls.isEmpty = true
      · left
        exact ⟨[], chunkStr step.content, mem ++ [mkAssistant step.content], calls + 1, by
          rw [streamCore_final script exec k count mem ev calls step hs hc]
          simp [pairBlock]⟩
      · have hc' : step.tool_calls.isEmpty = false := by simpa using hc
        cases he : exec count with
        | ok batch =>
          rcases ih (count + 1) ((mem ++ [assistantToolMsg step]) ++ batch.history)
              (ev ++ pairBlock batch.tools_detailed) (calls + 1)
            with ⟨ds, cs, memf, cf, hEq⟩ | ⟨ds, e, memf, cf, hEq⟩
          · left
            refine ⟨batch.tools_detailed ++ ds, cs, memf, cf, ?_⟩
            rw [streamCore_tool_round script exec k count mem ev calls step batch hs hc' he,
              hEq, pairBlock_append]
            simp [List.append_assoc]
          · right
            refine ⟨batch.tools_detailed ++ ds, e, memf, cf, ?_⟩
            rw [streamCore_tool_round script exec k count mem ev calls step batch hs hc' he,
              hEq, pairBlock_append]
            simp [List.append_assoc]
        | error e =>
          right
          refine ⟨[], e,
            (if isPermissionDenied e then
              (if lastIsAssistant (mem ++ [assistantToolMsg step]) then
                (mem ++ [assistantToolMsg step]).dropLast
              else mem ++ [assistantToolMsg step])
            else mem ++ [assistantToolMsg step]), calls + 1, ?_⟩
          rw [streamCore_tool_error script exec k count mem ev calls step e hs hc' he]
          simp [pairBlock]

theorem streamCore_calls_le {α : Type} (script : Nat → Except String (ModelStep α))
    (exec : Nat → Except String ExecBatch) :
    ∀ (k count : Nat) (mem : List Message) (ev : List StreamEvent) (calls : Nat),
      callsOf (streamCore script exec k count mem ev calls) ≤ calls + k + 1 := by
  intro k
  induction k with
  | zero =>
    intro count mem ev calls
    cases hs : script count with
    | error e => rw [streamCore_model_error script exec 0 count mem ev calls e hs]; simp [callsOf]
    | ok step => rw [streamCore_forced script exec count mem ev calls step hs]; simp [callsOf]
  | succ k ih =>
    intro count mem ev calls
    cases hs : script count with
    | error e =>
      rw [streamCore_model_error script exec (k + 1) count mem ev calls e hs]
      simp only [callsOf]
      omega
    | ok step =>
      by_cases hc : step.tool_calls.isEmpty = true
      · rw [streamCore_final script exec k count mem ev calls step hs hc]
        simp only [callsOf]
        omega
      · have hc' : step.tool_calls.isEmpty = false := by simpa using hc
        cases he : exec count with
        | ok batch =>
          rw [streamCore_tool_round script exec k count mem ev calls step batch hs hc' he]
          have := ih (count + 1) ((mem ++ [assistantToolMsg step]) ++ batch.history)
            (ev ++ pairBlock batch.tools_detailed) (calls + 1)
          omega
        | error e =>
          rw [streamCore_tool_error script exec k count mem ev calls step e hs hc' he]
          simp only [callsOf]
          omega

theorem inference_stream_calls {α : Type} (script : Nat → Except String (ModelStep α))
    (exec : Nat → Except String ExecBatch) (mem0 : List Message) (prompt : String)
    (maxIter : Nat) :
    (inference_stream script exec mem0 prompt maxIter).2.2 =
      callsOf (streamCore script exec maxIter 0 (mem0 ++ [mkUser prompt]) [] 0) := by
  unfold inference_stream
  cases streamCore script exec maxIter 0 (mem0 ++ [mkUser prompt]) [] 0 <;> rfl

theorem streamCore_goodRounds {α : Type} (script : Nat → Except String (ModelStep α))
    (exec : Nat → Except String ExecBatch) :
    ∀ (k rem count : Nat) (mem : List Message) (ev : List StreamEvent) (calls : Nat),
      (∀ i, i < k → goodRound script exec (count + i)) →
      streamCore script exec (k + rem) count mem ev calls =
        streamCore script exec rem (count + k) (mem ++ accMem script exec k count)
          (ev ++ accEv script exec k count) (calls + k) := by
  intro k
  induction k with
  | zero =>
    intro rem count mem ev calls _
    simp [accMem, accEv]
  | succ k ih =>
    intro rem count mem ev calls h
    have h0 := h 0 (Nat.succ_pos k)
    rw [Nat.add_zero] at h0
    obtain ⟨step, batch, hs, hc, he⟩ := h0
    have hc' : step.tool_calls.isEmpty = false := by
      cases htc : step.tool_calls with
      | nil => exact absurd htc hc
      | cons _ _ => rfl
    have hstep : (k + 1) + rem = (k + rem) + 1 := by omega
    rw [hstep,
      streamCore_tool_round script exec (k + rem) count mem ev calls step batch hs hc' he,
      ih rem (count + 1) _ _ _ (fun i hi => by
        have := h (i + 1) (Nat.succ_lt_succ hi)
        rwa [show count + (i + 1) = count + 1 + i by omega] at this)]
    have e1 : count + 1 + k = count + (k + 1) := by omega
    have e2 : calls + 1 + k = calls + (k + 1) := by omega
    have e3 : accMem script exec (k + 1) count =
        (assistantToolMsg step :: batch.history) ++ accMem script exec k (count + 1) := by
      simp [accMem, roundMsgs, hs, he]
    have e4 : accEv script exec (k + 1) count =
        pairBlock batch.tools_detailed ++ accEv script exec k (count + 1) := by
      simp [accEv, roundDetails, hs, he]
    rw [e1, e2, e3, e4]
    simp [List.append_assoc]

/-! ### Lemmas about the synchronous round loop -/

theorem process_core_tool_round {α : Type} (script : Nat → ModelStep α)
    (provider : String → List (String × α) → Except String String)
    (tools : List (String × ToolInfo)) (maxIter k count : Nat) (hist : List Message)
    (used : List String) (log : List CallRec)
    (hc : (script count).tool_calls.isEmpty = false) :
    process_query_core script provider tools maxIter (k + 1) count hist used log =
      process_query_core script provider tools maxIter k (count + 1)
        ((hist ++ [assistantToolMsg (script count)]) ++
          (execute_tool_calls provider tools (script count).tool_calls).history)
        (used ++ (execute_tool_calls provider tools (script count).tool_calls).tools_used)
        (log ++ [⟨hist, true⟩]) := by
  simp [process_query_core, hc]

theorem process_core_final {α : Type} (script : Nat → ModelStep α)
    (provider : String → List (String × α) → Except String String)
    (tools : List (String × ToolInfo)) (maxIter k count : Nat) (hist : List Message)
    (used : List String) (log : List CallRec)
    (hc : (script count).tool_calls.isEmpty = true) :
    process_query_core script provider tools maxIter (k + 1) count hist used log =
      ⟨(script count).content, count + 1, used,
        hist ++ [mkAssistant (script count).content], log ++ [⟨hist, true⟩]⟩ := by
  simp [process_query_core, hc]

theorem process_core_log_le {α : Type} (script : Nat → ModelStep α)
    (provider : String → List (String × α) → Except String String)
    (tools : List (String × ToolInfo)) (maxIter : Nat) :
    ∀ (k count : Nat) (hist : List Message) (used : List String) (log : List CallRec),
      (process_query_core script provider tools maxIter k count hist used log).callLog.length ≤
        log.length + k + 1 := by
  intro k
  induction k with
  | zero =>
    intro count hist used log
    simp [process_query_core, generate_final_response]
  | succ k ih =>
    intro count hist used log
    by_cases hc : (script count).tool_calls.isEmpty = true
    · rw [process_core_final script provider tools maxIter k count hist used log hc]
      simp only [List.length_append, List.length_cons, List.length_nil]
      omega
    · have hc' : (script count).tool_calls.isEmpty = false := by simpa using hc
      rw [process_core_tool_round script provider tools maxIter k count hist used log hc']
      have := ih (count + 1)
        ((hist ++ [assistantToolMsg (script count)]) ++
          (execute_tool_calls provider tools (script count).tool_calls).history)
        (used ++ (execute_tool_calls provider tools (script count).tool_calls).tools_used)
        (log ++ [⟨hist, true⟩])
      simp only [List.length_append, List.length_cons, List.length_nil] at this
      omega

theorem process_core_allTools {α : Type} (script : Nat → ModelStep α)
    (provider : String → List (String × α) → Except String String)
    (tools : List (String × ToolInfo)) (maxIter : Nat) :
    ∀ (k count : Nat) (hist : List Message) (used : List String) (log : List CallRec),
      (∀ i, i < k → (script (count + i)).tool_calls ≠ []) →
      ∃ (hist2 : List Message) (used2 : List String) (newlogs : List CallRec),
        process_query_core script provider tools maxIter k count hist used log =
          process_query_core script provider tools maxIter 0 (count + k) hist2 used2
            (log ++ newlogs) ∧
        newlogs.length = k ∧ ∀ rec ∈ newlogs, rec.withTools = true := by
  intro k
  induction k with
  | zero =>
    intro count hist used log _
    exact ⟨hist, used, [], by simp, rfl, by simp⟩
  | succ k ih =>
    intro count hist used log h
    have h0 := h 0 (Nat.succ_pos k)
    rw [Nat.add_zero] at h0
    have hc' : (script count).tool_calls.isEmpty = false := by
      cases htc : (script count).tool_calls with
      | nil => exact absurd htc h0
      | cons _ _ => rfl
    rw [process_core_tool_round script provider tools maxIter k count hist used log hc']
    obtain ⟨hist2, used2, newlogs, heq, hlen, hmem⟩ := ih (count + 1)
      ((hist ++ [assistantToolMsg (script count)]) ++
        (execute_tool_calls provider tools (script count).tool_calls).history)
      (used ++ (execute_tool_calls provider tools (script count).tool_calls).tools_used)
      (log ++ [⟨hist, true⟩])
      (fun i hi => by
        have := h (i + 1) (Nat.succ_lt_succ hi)
        rwa [show count + (i + 1) = count + 1 + i by omega] at this)
    refine ⟨hist2, used2, ⟨hist, true⟩ :: newlogs, ?_, by simp [hlen], ?_⟩
    · rw [heq, show count + 1 + k = count + (k + 1) by omega]
      simp [List.append_assoc]
    · intro rec hrec
      rcases List.mem_cons.mp hrec with h' | h'
      · subst h'; rfl
      · exact hmem rec h'

/-- C1: in the streaming loop, when the tool-execution provider of round
`k` (after `k` successful tool rounds) raises a failure whose message
indicates permission denial, the just-appended assistant tool-call
message is removed again (the final memory is exactly the memory before
that append), the failure is re-raised out of the round loop and
surfaces as the terminal `error` event, and no further rounds run: the
request makes exactly `k + 1` model calls. -/
theorem claim_C1_permission_rollback {α : Type} (script : Nat → Except String (ModelStep α))
    (exec : Nat → Except String ExecBatch) (mem0 : List Message) (prompt : String)
    (maxIter k : Nat) (step : ModelStep α) (e : String)
    (hgood : ∀ i, i < k → goodRound script exec i)
    (hk : k < maxIter)
    (hs : script k = .ok step) (hc : step.tool_calls ≠ [])
    (he : exec k = .error e) (hperm : isPermissionDenied e = true) :
    inference_stream script exec mem0 prompt maxIter =
      (accEv script exec k 0 ++ [.error e],
       (mem0 ++ [mkUser prompt]) ++ accMem script exec k 0,
       k + 1) := by
  obtain ⟨r, hr⟩ : ∃ r, maxIter = k + (r + 1) := ⟨maxIter - k - 1, by omega⟩
  have hc' : step.tool_calls.isEmpty = false := by
    cases htc : step.tool_calls with
    | nil => exact absurd htc hc
    | cons _ _ => rfl
  have hgood0 : ∀ i, i < k → goodRound script exec (0 + i) := fun i hi => by
    rw [Nat.zero_add]; exact hgood i hi
  unfold inference_stream
  rw [hr, streamCore_goodRounds script exec k (r + 1) 0 (mem0 ++ [mkUser prompt]) [] 0 hgood0]
  rw [streamCore_tool_error script exec r (0 + k) _ _ _ step e (by simpa using hs) hc'
    (by simpa using he)]
  simp only [hperm, lastIsAssistant_toolMsg, if_true, List.dropLast_concat,
    List.nil_append, Nat.zero_add]

/-- C1 witness: the spec scenario at the 2nd round (one successful tool
round, then a permission denial): the assistant append is rolled back,
the stream ends in the single `error` event, and exactly 2 model calls
were made. -/
theorem claim_C1_witness :
    inference_stream
      (fun i => if i = 0 then .ok (⟨[⟨"c1", "t", [("q", "x")]⟩], "s0"⟩ : ModelStep String)
                else .ok ⟨[⟨"c2", "t", [("q", "y")]⟩], "s1"⟩)
      (fun i => if i = 0 then
                  .ok ⟨["s:t"], [⟨"tool", "r0", some "c1", false⟩], [⟨"t", "a", "r0", true⟩]⟩
                else .error "Access Denied")
      [⟨"system", "sys", none, false⟩] "hi" 5 =
      ([.tool_call_start ⟨"t", "a", "r0", true⟩, .tool_result ⟨"t", "a", "r0", true⟩,
        .error "Access Denied"],
       [⟨"system", "sys", none, false⟩, ⟨"user", "hi", none, false⟩,
        ⟨"assistant", "s0", none, true⟩, ⟨"tool", "r0", some "c1", false⟩],
       2) := by
  have h := claim_C1_permission_rollback
    (fun i => if i = 0 then .ok (⟨[⟨"c1", "t", [("q", "x")]⟩], "s0"⟩ : ModelStep String)
              else .ok ⟨[⟨"c2", "t", [("q", "y")]⟩], "s1"⟩)
    (fun i => if i = 0 then
                .ok ⟨["s:t"], [⟨"tool", "r0", some "c1", false⟩], [⟨"t", "a", "r0", true⟩]⟩
              else .error "Access Denied")
    [⟨"system", "sys", none, false⟩] "hi" 5 1
    ⟨[⟨"c2", "t", [("q", "y")]⟩], "s1"⟩ "Access Denied"
    (fun i hi => by
      have hi0 : i = 0 := by omega
      subst hi0
      exact ⟨⟨[⟨"c1", "t", [("q", "x")]⟩], "s0"⟩,
        ⟨["s:t"], [⟨"tool", "r0", some "c1", false⟩], [⟨"t", "a", "r0", true⟩]⟩,
        rfl, by decide, rfl⟩)
    (by decide) rfl (by decide) rfl (by decide)
  rw [h]
  decide

/-- C2: both orchestration loops terminate and issue at most
`maxIter + 1` model calls: the synchronous loop logs at most that many
chat-completion requests, and the streaming loop counts at most that
many. -/
theorem claim_C2_call_budget {α β : Type} (script : Nat → ModelStep α)
    (provider : String → List (String × α) → Except String String)
    (tools : List (String × ToolInfo)) (hist0 : List Message) (userMsg : String)
    (maxIter : Nat) (script2 : Nat → Except String (ModelStep β))
    (exec : Nat → Except String ExecBatch) (mem0 : List Message) (prompt : String) :
    (process_query_async script provider tools hist0 userMsg maxIter).callLog.length ≤
        maxIter + 1 ∧
    (inference_stream script2 exec mem0 prompt maxIter).2.2 ≤ maxIter + 1 := by
  constructor
  · have h := process_core_log_le script provider tools maxIter maxIter 0
      (hist0 ++ [mkUser userMsg]) [] []
    simpa [process_query_async] using h
  · rw [inference_stream_calls]
    have h := streamCore_calls_le script2 exec maxIter 0 (mem0 ++ [mkUser prompt]) [] 0
    omega

/-- C3: when every one of the `maxIter` rounds produces tool calls, the
synchronous loop makes exactly one additional model call: the call log
has `maxIter + 1` entries, all in-loop calls carry the tool list, the
last call carries no tools and its message list ends with the
system-authored summarisation instruction, that response content is the
final answer, and the reported iterations equal `maxIter`. -/
theorem claim_C3_forced_summary {α : Type} (script : Nat → ModelStep α)
    (provider : String → List (String × α) → Except String String)
    (tools : List (String × ToolInfo)) (hist0 : List Message) (userMsg : String)
    (maxIter : Nat)
    (h : ∀ i, i < maxIter → (script i).tool_calls ≠ []) :
    (process_query_async script provider tools hist0 userMsg maxIter).answer =
        (script maxIter).content ∧
    (process_query_async script provider tools hist0 userMsg maxIter).iterations = maxIter ∧
    (process_query_async script provider tools hist0 userMsg maxIter).callLog.length =
        maxIter + 1 ∧
    (∃ rec, (process_query_async script provider tools hist0 userMsg maxIter).callLog.getLast? =
          some rec ∧
        rec.withTools = false ∧ rec.msgs.getLast? = some (mkUser maxLimitPrompt)) ∧
    (∀ rec ∈ (process_query_async script provider tools hist0 userMsg maxIter).callLog.dropLast,
      rec.withTools = true) := by
  obtain ⟨hist2, used2, newlogs, heq, hlen, hmem⟩ :=
    process_core_allTools script provider tools maxIter maxIter 0
      (hist0 ++ [mkUser userMsg]) [] []
      (fun i hi => by simpa using h i hi)
  have hrw : process_query_async script provider tools hist0 userMsg maxIter =
      ⟨(script maxIter).content, maxIter, used2,
        (hist2 ++ [mkUser maxLimitPrompt]) ++ [mkAssistant (script maxIter).content],
        newlogs ++ [⟨hist2 ++ [mkUser maxLimitPrompt], false⟩]⟩ := by
    unfold process_query_async
    rw [heq]
    simp [process_query_core, generate_final_response]
  rw [hrw]
  refine ⟨rfl, rfl, by simp [hlen], ?_, ?_⟩
  · exact ⟨⟨hist2 ++ [mkUser maxLimitPrompt], false⟩, by simp [List.getLast?_concat],
      rfl, List.getLast?_concat _⟩
  · intro rec hrec
    rw [List.dropLast_concat] at hrec
    exact hmem rec hrec

/-- C3 witness: the default scenario, five tool rounds, then the forced
summary call: its content is the answer and `iterations_used = 5` with
six model calls in total. -/
theorem claim_C3_witness :
    (process_query_async
        (fun i => if i < 5 then (⟨[⟨"c", "t", [("q", "v")]⟩], "mid"⟩ : ModelStep String)
                  else ⟨[], "final answer"⟩)
        (fun _ _ => .ok "res") [("s:t", (⟨"s", "t", ⟨["q"], ["q"]⟩⟩ : ToolInfo))]
        [⟨"system", "sys", none, false⟩] "go" 5).answer = "final answer" ∧
    (process_query_async
        (fun i => if i < 5 then (⟨[⟨"c", "t", [("q", "v")]⟩], "mid"⟩ : ModelStep String)
                  else ⟨[], "final answer"⟩)
        (fun _ _ => .ok "res") [("s:t", (⟨"s", "t", ⟨["q"], ["q"]⟩⟩ : ToolInfo))]
        [⟨"system", "sys", none, false⟩] "go" 5).iterations = 5 ∧
    (process_query_async
        (fun i => if i < 5 then (⟨[⟨"c", "t", [("q", "v")]⟩], "mid"⟩ : ModelStep String)
                  else ⟨[], "final answer"⟩)
        (fun _ _ => .ok "res") [("s:t", (⟨"s", "t", ⟨["q"], ["q"]⟩⟩ : ToolInfo))]
        [⟨"system", "sys", none, false⟩] "go" 5).callLog.length = 6 := by
  have h := claim_C3_forced_summary
    (fun i => if i < 5 then (⟨[⟨"c", "t", [("q", "v")]⟩], "mid"⟩ : ModelStep String)
              else ⟨[], "final answer"⟩)
    (fun _ _ => .ok "res") [("s:t", (⟨"s", "t", ⟨["q"], ["q"]⟩⟩ : ToolInfo))]
    [⟨"system", "sys", none, false⟩] "go" 5
    (fun i hi => by simp [hi])
  refine ⟨?_, h.2.1, h.2.2.1⟩
  rw [h.1]
  decide

/-- C7: a tool invocation that fails (for any recoverable reason) is
recorded as a failed outcome whose result text is the failure text,
converted 1:1 into a `role=tool` message carrying the proposed call id,
and the round loop continues with that message appended instead of
propagating the failure. -/
theorem claim_C7_recoverable_tool_failure {α : Type}
    (provider : String → List (String × α) → Except String String)
    (tools : List (String × ToolInfo)) (c : ToolCallReq α) (e ln : String)
    (script : Nat → ModelStep α) (maxIter k count : Nat) (hist : List Message)
    (used : List String) (log : List CallRec)
    (hfind : firstLong tools c.name = some ln)
    (hfail : provider ln (fix_tool_args tools c.args ln) = .error e) :
    execOne provider tools c =
      (ln, { role := "tool", content := "Tool execution failed: " ++ e,
             tool_call_id := some c.id, has_tool_calls := false }) ∧
    (∀ calls : List (ToolCallReq α),
      (execute_tool_calls provider tools calls).history.length = calls.length) ∧
    ((script count).tool_calls ≠ [] →
      process_query_core script provider tools maxIter (k + 1) count hist used log =
        process_query_core script provider tools maxIter k (count + 1)
          ((hist ++ [assistantToolMsg (script count)]) ++
            (execute_tool_calls provider tools (script count).tool_calls).history)
          (used ++ (execute_tool_calls provider tools (script count).tool_calls).tools_used)
          (log ++ [⟨hist, true⟩])) := by
  refine ⟨?_, ?_, ?_⟩
  · simp [execOne, hfind, hfail, mkToolMsg]
  · intro calls
    simp [execute_tool_calls]
  · intro hc
    have hc' : (script count).tool_calls.isEmpty = false := by
      cases htc : (script count).tool_calls with
      | nil => exact absurd htc hc
      | cons _ _ => rfl
    exact process_core_tool_round script provider tools maxIter k count hist used log hc'

/-- C7 witness: a provider that always fails; the recorded message is the
`role=tool` entry with the failure text and the call id. -/
theorem claim_C7_witness :
    execOne (fun _ _ => (.error "boom" : Except String String))
      [("s:x", (⟨"s", "x", ⟨["q"], ["q"]⟩⟩ : ToolInfo))]
      (⟨"id1", "x", [("q", "v")]⟩ : ToolCallReq String) =
      ("s:x", ⟨"tool", "Tool execution failed: boom", some "id1", false⟩) :=
  (claim_C7_recoverable_tool_failure (fun _ _ => .error "boom")
    [("s:x", ⟨"s", "x", ⟨["q"], ["q"]⟩⟩)] ⟨"id1", "x", [("q", "v")]⟩ "boom" "s:x"
    (fun _ => ⟨[], ""⟩) 0 0 0 [] [] [] (by decide) rfl).1

/-- C8: every event sequence of the streaming loop is a block of
`tool_call_start`/`tool_result` pairs followed either by content chunks
and exactly one `done`, or by exactly one `error`; in particular nothing
follows the terminal event and `done` and `error` never both occur. -/
theorem claim_C8_event_lifecycle {α : Type} (script : Nat → Except String (ModelStep α))
    (exec : Nat → Except String ExecBatch) (mem0 : List Message) (prompt : String)
    (maxIter : Nat) :
    (∃ (ds : List ToolDetail) (cs : List String),
        (inference_stream script exec mem0 prompt maxIter).1 =
          pairBlock ds ++ cs.map StreamEvent.content ++ [.done]) ∨
    (∃ (ds : List ToolDetail) (e : String),
        (inference_stream script exec mem0 prompt maxIter).1 =
          pairBlock ds ++ [.error e]) := by
  rcases streamCore_shape script exec maxIter 0 (mem0 ++ [mkUser prompt]) [] 0
    with ⟨ds, cs, memf, cf, hEq⟩ | ⟨ds, e, memf, cf, hEq⟩
  · left
    refine ⟨ds, cs, ?_⟩
    unfold inference_stream
    rw [hEq]
    simp
  · right
    refine ⟨ds, e, ?_⟩
    unfold inference_stream
    rw [hEq]
    simp

/-- C9: on reaching FINAL after `k` good tool rounds, the emitted events
are the accumulated tool-event pairs followed by the successive 20-char
chunks of the answer and one `done`; the chunks concatenate back to the
answer exactly, every chunk but the last has length 20, and every chunk
is nonempty and at most 20 characters. -/
theorem claim_C9_chunked_final_answer {α : Type} (script : Nat → Except String (ModelStep α))
    (exec : Nat → Except String ExecBatch) (mem0 : List Message) (prompt : String)
    (maxIter k : Nat) (step : ModelStep α)
    (hgood : ∀ i, i < k → goodRound script exec i)
    (hk : k < maxIter)
    (hs : script k = .ok step) (hc : step.tool_calls = []) :
    (inference_stream script exec mem0 prompt maxIter).1 =
      accEv script exec k 0 ++ (chunkStr step.content).map StreamEvent.content ++ [.done] ∧
    ((chunkStr step.content).map String.data).flatten = step.content.data ∧
    (∀ c ∈ (chunkStr step.content).dropLast, c.length = 20) ∧
    (∀ c ∈ chunkStr step.content, c.length ≤ 20 ∧ c ≠ "") := by
  refine ⟨?_, chunkStr_flatten step.content, (chunkStr_sizes step.content).1,
    (chunkStr_sizes step.content).2⟩
  obtain ⟨r, hr⟩ : ∃ r, maxIter = k + (r + 1) := ⟨maxIter - k - 1, by omega⟩
  have hce : step.tool_calls.isEmpty = true := by simp [hc]
  have hgood0 : ∀ i, i < k → goodRound script exec (0 + i) := fun i hi => by
    rw [Nat.zero_add]; exact hgood i hi
  unfold inference_stream
  rw [hr, streamCore_goodRounds script exec k (r + 1) 0 (mem0 ++ [mkUser prompt]) [] 0 hgood0]
  rw [streamCore_final script exec r (0 + k) _ _ _ step (by simpa using hs) hce]
  simp [List.append_assoc]

/-- C9 witness: one tool round, then a 41-character final answer: the
content events are the two full 20-character chunks and the short final
chunk, terminated by `done`. -/
theorem claim_C9_witness :
    (inference_stream
        (fun i => if i = 0 then .ok (⟨[⟨"c1", "t", [("q", "x")]⟩], "s0"⟩ : ModelStep String)
                  else .ok ⟨[], "aaaaaaaaaaaaaaaaaaaabbbbbbbbbbbbbbbbbbbbc"⟩)
        (fun _ => .ok ⟨["s:t"], [⟨"tool", "r0", some "c1", false⟩], [⟨"t", "a", "r0", true⟩]⟩)
        [⟨"system", "sys", none, false⟩] "hi" 5).1 =
      [.tool_call_start ⟨"t", "a", "r0", true⟩, .tool_result ⟨"t", "a", "r0", true⟩,
       .content "aaaaaaaaaaaaaaaaaaaa", .content "bbbbbbbbbbbbbbbbbbbb", .content "c",
       .done] := by
  have h := claim_C9_chunked_final_answer
    (fun i => if i = 0 then .ok (⟨[⟨"c1", "t", [("q", "x")]⟩], "s0"⟩ : ModelStep String)
              else .ok ⟨[], "aaaaaaaaaaaaaaaaaaaabbbbbbbbbbbbbbbbbbbbc"⟩)
    (fun _ => .ok ⟨["s:t"], [⟨"tool", "r0", some "c1", false⟩], [⟨"t", "a", "r0", true⟩]⟩)
    [⟨"system", "sys", none, false⟩] "hi" 5 1
    ⟨[], "aaaaaaaaaaaaaaaaaaaabbbbbbbbbbbbbbbbbbbbc"⟩
    (fun i hi => by
      have hi0 : i = 0 := by omega
      subst hi0
      exact ⟨⟨[⟨"c1", "t", [("q", "x")]⟩], "s0"⟩,
        ⟨["s:t"], [⟨"tool", "r0", some "c1", false⟩], [⟨"t", "a", "r0", true⟩]⟩,
        rfl, by decide, rfl⟩)
    (by decide) rfl rfl
  rw [h.1]
  decide
